import Mathlib

/-!
Shallow embedding of the remote-resource synchronization subsystem of the
repository (src/utils/updateManager.ts and src/utils/unifiedDownloader.ts).

External collaborators (the network, the regex engine, JSON.parse /
JSON.stringify) are modelled as explicit oracle functions passed in a
`NetEnv` record; the file system is modelled as an association list from
file name to file content.  Every definition below is translated from the
TypeScript source, function by function.
-/

namespace Nikke

/-- `GitHubFile`: one entry of a GitHub directory listing
(updateManager.ts lines 8-14 / unifiedDownloader.ts lines 8-14). -/
structure GitHubFile where
  name : String
  path : String
  download_url : String
  size : Nat
  type : String
deriving DecidableEq, Repr

/-- The `type` discriminator of `UpdateConfig` (updateManager.ts line 18). -/
inductive UpdateType where
  | github
  | json
  | urlMonitor
  | dynamicJson
deriving DecidableEq, Repr

/-- `UpdateConfig` (updateManager.ts lines 16-44).  Optional TypeScript
fields become `Option`s. -/
structure UpdateConfig where
  name : String
  type : UpdateType
  enabled : Bool
  checkInterval : Nat
  githubRepo : Option String := none
  githubPath : Option String := none
  localPath : Option String := none
  jsonSources : Option (List String) := none
  jsonOutputFile : Option String := none
  notebookUrl : Option String := none
  twUrlPattern : Option String := none
  enUrlPattern : Option String := none
  dynamicUrlSource : Option String := none
  urlPattern : Option String := none
  enableCommitTracking : Option Bool := none
  commitStorageFile : Option String := none
  excludePatterns : Option (List String) := none
  fileExtensions : Option (List String) := none
deriving DecidableEq, Repr

/-- Status discriminator of `UpdateStatus` (updateManager.ts line 52). -/
inductive StatusKind where
  | success
  | error
  | pending
  | disabled
deriving DecidableEq, Repr

/-- `UpdateStatus` (updateManager.ts lines 46-59).  Dates are modelled as
`Option Nat` timestamps; the `stats` field is not needed by any claim. -/
structure UpdateStatus where
  name : String
  isRunning : Bool
  lastCheck : Option Nat := none
  nextCheck : Option Nat := none
  lastUpdate : Option Nat := none
  status : StatusKind
  error : Option String := none
deriving DecidableEq, Repr

/-- `CommitInfo` (updateManager.ts lines 72-76). -/
structure CommitInfo where
  commitHash : String
  timestamp : Nat
  url : String
deriving DecidableEq, Repr

/-- The local file system: an association list from file name to file
content.  `writeFileEntry` prepends, and `lookupFile` returns the first
match, so a later write shadows an earlier one, like `fs.writeFile`. -/
abbrev FileSys := List (String × String)

def containsKey (fs : FileSys) (name : String) : Bool :=
  fs.any fun e => e.1 = name

def lookupFile (fs : FileSys) (name : String) : Option String :=
  (fs.find? fun e => e.1 = name).map Prod.snd

def writeFileEntry (fs : FileSys) (name content : String) : FileSys :=
  (name, content) :: fs

/-- ASCII lower-casing, the model of `String.prototype.toLowerCase` as used
on file names and exclude patterns. -/
def toLowerCaseStr (s : String) : String :=
  String.mk (s.toList.map Char.toLower)

/-- Position of the last `.` in a character list, counting from `start`. -/
def lastDotFrom : List Char → Nat → Option Nat
  | [], _ => none
  | c :: rest, i =>
    match lastDotFrom rest (i + 1) with
    | some j => some j
    | none => if c = '.' then some i else none

/-- Model of Node's `path.extname` on a plain base name: the substring from
the last `.` to the end, and `""` when there is no dot or the only dot is
the leading character (dotfiles have no extension). -/
def extname (s : String) : String :=
  match lastDotFrom s.toList 0 with
  | none => ""
  | some 0 => ""
  | some i => String.mk (s.toList.drop i)

/-- Substring containment, the model of `String.prototype.includes`:
`needle` occurs contiguously inside `hay`. -/
def containsSub (hay needle : String) : Bool :=
  hay.toList.tails.any fun t => needle.toList.isPrefixOf t

/-- `UpdateManager.isValidFile` (updateManager.ts lines 732-736): with no
`fileExtensions` configured every name passes; otherwise the lower-cased
extension must be in the allow-list. -/
def isValidFile (fileName : String) (config : UpdateConfig) : Bool :=
  match config.fileExtensions with
  | none => true
  | some exts => exts.contains (toLowerCaseStr (extname fileName))

/-- `UpdateManager.shouldExcludeFile` (updateManager.ts lines 741-747):
excluded when some exclude pattern occurs in the lower-cased name. -/
def shouldExcludeFile (fileName : String) (config : UpdateConfig) : Bool :=
  match config.excludePatterns with
  | none => false
  | some ps =>
    ps.any fun p => containsSub (toLowerCaseStr fileName) (toLowerCaseStr p)

/-- The `files.filter(type === "file").filter(isValid).filter(!exclude)`
pipeline applied to a GitHub listing, shared by `checkGitHubUpdates`
(updateManager.ts lines 335-338) and `downloadGitHubFiles` (lines 368-371). -/
def githubValidFiles (config : UpdateConfig) (files : List GitHubFile) :
    List GitHubFile :=
  ((files.filter fun f => f.type = "file").filter
      fun f => isValidFile f.name config).filter
    fun f => !shouldExcludeFile f.name config

/-- `file.startsWith(".")`: whether the first character is a dot. -/
def startsWithDot (s : String) : Bool :=
  match s.toList with
  | [] => false
  | c :: _ => c = '.'

/-- `UpdateManager.getLocalFileList` (updateManager.ts lines 752-767):
`fs.readdir` filtered to names that are not dotfiles and pass the
extension allow-list.  A missing directory reads as the empty list, which
the empty `FileSys` models. -/
def getLocalFileList (fs : FileSys) (config : UpdateConfig) : List String :=
  (fs.map Prod.fst).filter fun file =>
    if startsWithDot file then false
    else
      match config.fileExtensions with
      | none => true
      | some exts => exts.contains (toLowerCaseStr (extname file))

/-- `Array.prototype.sort()` on string arrays: sort by the string order. -/
def sortStr (l : List String) : List String :=
  l.insertionSort (· ≤ ·)

/-- The index loop of `UpdateManager.compareFileLists` (updateManager.ts
lines 779-782): true as soon as some position differs.  The arm for a
longer first list mirrors JS indexing past the end (`undefined !== s`). -/
def anyPositionDiffers : List String → List String → Bool
  | [], _ => false
  | x :: xs, y :: ys => if x ≠ y then true else anyPositionDiffers xs ys
  | _ :: _, [] => true

/-- `UpdateManager.compareFileLists` (updateManager.ts lines 772-783):
returns `true` ("changed") when the local list is empty, when the lengths
differ, or when some position differs; `false` otherwise. -/
def compareFileLists (localFiles remoteFiles : List String) : Bool :=
  if localFiles.length = 0 then true
  else if localFiles.length ≠ remoteFiles.length then true
  else anyPositionDiffers localFiles remoteFiles

/-- The directory file-list change detector as composed in
`UpdateManager.checkGitHubUpdates` (updateManager.ts lines 340-350): both
name lists are sorted, then compared with `compareFileLists`. -/
def detectFileListChange (localFiles remoteFiles : List String) : Bool :=
  compareFileLists (sortStr localFiles) (sortStr remoteFiles)

/-- `UnifiedDownloader.hasFileChanges` (unifiedDownloader.ts lines
154-164): the current remote names are sorted and compared positionally
against the stored `lastFileList`; an empty stored list always reports a
change. -/
def hasFileChanges (lastFileList : List String) (currentFiles : List GitHubFile) :
    Bool :=
  let currentFileNames := sortStr (currentFiles.map GitHubFile.name)
  if lastFileList.length = 0 then true
  else if currentFileNames.length ≠ lastFileList.length then true
  else anyPositionDiffers currentFileNames lastFileList

/-- Outcome of one HTTP request, abstracting `fetch`: a parsed 2xx body,
the 403 rate-limit answer, or another non-2xx status code. -/
inductive HttpResult (α : Type) where
  | ok : α → HttpResult α
  | rateLimited : HttpResult α
  | httpError : Nat → HttpResult α
deriving DecidableEq

/-- The external collaborators of the sync subsystem, as oracle functions:
`fetchText`/`fetchBinary` are `fetch` of a URL (`none` models a thrown
network or HTTP error), `parseJson content` is
`JSON.stringify(JSON.parse(content), null, 2)` (`none` models a
`JSON.parse` throw), `lookupCommit url` is
`UpdateManager.getCommitHashFromUrl` (`none` models its `null` result),
and `applyPattern pat text` is `text.match(new RegExp(pat))?.[1]`. -/
structure NetEnv where
  fetchText : String → Option String
  fetchBinary : String → Option String
  parseJson : String → Option String
  lookupCommit : String → Option String
  applyPattern : String → String → Option String

/-- Result of one change check: whether an update is needed, and whether a
rate-limit warning was logged on the way. -/
structure CheckOutcome where
  changed : Bool
  warned : Bool
deriving DecidableEq

/-- `UpdateManager.checkGitHubUpdates` (updateManager.ts lines 313-351):
a 403 listing answer logs a warning and reports "no updates"; another
non-2xx status throws; a 2xx answer filters and sorts the remote names,
sorts the local names, and compares the two lists. -/
def checkGitHubUpdates (config : UpdateConfig)
    (listing : HttpResult (List GitHubFile)) (fs : FileSys) :
    Except String CheckOutcome :=
  match listing with
  | .rateLimited => .ok ⟨false, true⟩
  | .httpError code => .error ("GitHub API error: " ++ toString code)
  | .ok files =>
    let remoteFiles := sortStr ((githubValidFiles config files).map GitHubFile.name)
    let localFileNames := sortStr (getLocalFileList fs config)
    .ok ⟨compareFileLists localFileNames remoteFiles, false⟩

/-- The per-file loop of `UpdateManager.downloadGitHubFiles`
(updateManager.ts lines 377-411): a file whose name already exists locally
is skipped (`fs.access` succeeds, `continue`); otherwise the file body is
fetched and written, a failed fetch being caught and logged per file.
Returns the new file system and the number of files actually written. -/
def downloadFilesGo (env : NetEnv) : List GitHubFile → FileSys → FileSys × Nat
  | [], fs => (fs, 0)
  | f :: rest, fs =>
    if containsKey fs f.name then downloadFilesGo env rest fs
    else
      match env.fetchBinary f.download_url with
      | none => downloadFilesGo env rest fs
      | some content =>
        let r := downloadFilesGo env rest (writeFileEntry fs f.name content)
        (r.1, r.2 + 1)

/-- `UpdateManager.downloadGitHubFiles` (updateManager.ts lines 356-412):
re-fetches the listing, filters it, and runs the per-file loop.  A non-2xx
listing answer makes the subsequent array operations throw. -/
def downloadGitHubFiles (env : NetEnv) (config : UpdateConfig)
    (listing : HttpResult (List GitHubFile)) (fs : FileSys) :
    Except String (FileSys × Nat) :=
  match listing with
  | .ok files => .ok (downloadFilesGo env (githubValidFiles config files) fs)
  | .rateLimited => .error "GitHub listing unavailable"
  | .httpError code => .error ("GitHub API error: " ++ toString code)

/-- Result of one run of the github-type update routine. -/
structure GithubRunResult where
  success : Bool
  fs : FileSys
  downloads : Nat
  warned : Bool
deriving DecidableEq

/-- `UpdateManager.updateGitHubFiles` (updateManager.ts lines 289-308):
an incomplete configuration throws (outside the `try`, so the caller sees
the exception); inside the `try`, a thrown check or download is caught and
returns `false`; "no updates" and a completed download both return
`true`. -/
def updateGitHubFiles (env : NetEnv) (config : UpdateConfig)
    (listing : HttpResult (List GitHubFile)) (fs : FileSys) :
    Except String GithubRunResult :=
  if config.githubRepo.isNone || config.githubPath.isNone ||
      config.localPath.isNone then
    .error "GitHub config incomplete"
  else
    match checkGitHubUpdates config listing fs with
    | .error _ => .ok ⟨false, fs, 0, false⟩
    | .ok outcome =>
      if !outcome.changed then .ok ⟨true, fs, 0, outcome.warned⟩
      else
        match downloadGitHubFiles env config listing fs with
        | .error _ => .ok ⟨false, fs, 0, outcome.warned⟩
        | .ok (fs2, n) => .ok ⟨true, fs2, n, outcome.warned⟩

/-- Result of `performUpdate` specialised to a github-type task. -/
structure PerformResult where
  status : UpdateStatus
  fs : FileSys
  downloads : Nat
  warned : Bool
deriving DecidableEq

/-- `UpdateManager.performUpdate` (updateManager.ts lines 244-284)
specialised to `type === "github"`: stamp `lastCheck`, mark `pending`,
run `updateGitHubFiles`; a `true` result marks `success` and stamps
`lastUpdate`, a `false` result marks `error`, and a thrown error is caught
into the `error` state with its message retained. -/
def performUpdateGithub (env : NetEnv) (config : UpdateConfig)
    (listing : HttpResult (List GitHubFile)) (st : UpdateStatus)
    (fs : FileSys) (now : Nat) : PerformResult :=
  let pendingSt : UpdateStatus :=
    { st with lastCheck := some now, status := .pending }
  match updateGitHubFiles env config listing fs with
  | .ok r =>
    if r.success then
      ⟨{ pendingSt with status := .success, lastUpdate := some now },
        r.fs, r.downloads, r.warned⟩
    else ⟨{ pendingSt with status := .error }, r.fs, r.downloads, r.warned⟩
  | .error msg =>
    ⟨{ pendingSt with status := .error, error := some msg }, fs, 0, false⟩

/-- `UnifiedDownloader.getGitHubFileList` (unifiedDownloader.ts lines
103-129): a 403 answer logs a warning and returns the empty list; another
non-2xx status throws; a 2xx answer is filtered.  The filters of
`UnifiedDownloader` coincide with `isValidFile`/`shouldExcludeFile` above,
so the configured rules are carried in an `UpdateConfig`. -/
def getGitHubFileList (config : UpdateConfig)
    (listing : HttpResult (List GitHubFile)) :
    Except String (List GitHubFile) :=
  match listing with
  | .rateLimited => .ok []
  | .httpError code => .error ("GitHub API error: " ++ toString code)
  | .ok files => .ok (githubValidFiles config files)

/-- `UnifiedDownloader.downloadFile` (unifiedDownloader.ts lines 202-233):
returns `false` without touching anything when the file already exists
locally; otherwise fetches the body (a failed fetch throws) and writes it,
returning `true`. -/
def downloadFile (env : NetEnv) (fs : FileSys) (file : GitHubFile) :
    Except String (Bool × FileSys) :=
  if containsKey fs file.name then .ok (false, fs)
  else
    match env.fetchBinary file.download_url with
    | none => .error "download failed"
    | some content => .ok (true, writeFileEntry fs file.name content)

/-- The per-source loop of `UpdateManager.updateJsonData` (updateManager.ts
lines 426-464): each source is fetched and `JSON.parse`d; a fetch or parse
throw is caught, counted as a failure, and writes nothing; a parsed body
is re-serialized and written to the output file.  Returns the file system
and the success and failure counters. -/
def updateJsonSourcesGo (env : NetEnv) (outputFile : String) :
    List String → FileSys → FileSys × Nat × Nat
  | [], fs => (fs, 0, 0)
  | source :: rest, fs =>
    match env.fetchText source with
    | none =>
      let r := updateJsonSourcesGo env outputFile rest fs
      (r.1, r.2.1, r.2.2 + 1)
    | some content =>
      match env.parseJson content with
      | none =>
        let r := updateJsonSourcesGo env outputFile rest fs
        (r.1, r.2.1, r.2.2 + 1)
      | some normalized =>
        let r := updateJsonSourcesGo env outputFile rest
          (writeFileEntry fs outputFile normalized)
        (r.1, r.2.1 + 1, r.2.2)

/-- `UpdateManager.updateJsonData` (updateManager.ts lines 417-471): an
incomplete configuration throws; otherwise the source loop runs and the
routine succeeds exactly when no source failed. -/
def updateJsonData (env : NetEnv) (config : UpdateConfig) (fs : FileSys) :
    Except String (Bool × FileSys) :=
  match config.jsonSources, config.jsonOutputFile with
  | some sources, some outputFile =>
    let r := updateJsonSourcesGo env outputFile sources fs
    .ok (r.2.2 == 0, r.1)
  | _, _ => .error "JSON config incomplete"

/-- `UnifiedDownloader.downloadUrlContent` (unifiedDownloader.ts lines
648-685): fetches the URL (a failed fetch is logged and rethrown); a body
that parses as JSON is written re-serialized; a body that fails to parse
is written as raw text verbatim. -/
def downloadUrlContent (env : NetEnv) (url outputFileName : String)
    (fs : FileSys) : Except String (Bool × FileSys) :=
  match env.fetchText url with
  | none => .error "HTTP error"
  | some content =>
    match env.parseJson content with
    | some normalized => .ok (true, writeFileEntry fs outputFileName normalized)
    | none => .ok (true, writeFileEntry fs outputFileName content)

/-- `UpdateManager.extractUrlFromNotebook` (updateManager.ts lines
604-619): fetch the watched source file (a non-2xx answer throws) and
apply the configured pattern; `none` when the pattern does not match. -/
def extractUrlFromNotebook (env : NetEnv) (src pat : String) :
    Except String (Option String) :=
  match env.fetchText src with
  | none => .error "HTTP error"
  | some sourceCode => .ok (env.applyPattern pat sourceCode)

/-- `UpdateManager.checkCommitAndUpdate` (updateManager.ts lines 877-912):
`stored` is the result of `loadCommitInfo` (a missing or unreadable file
reads as `none`).  No obtainable commit hash means "download"; a first run
or a differing hash means "download"; a matching hash means "skip". -/
def checkCommitAndUpdate (env : NetEnv) (stored : Option CommitInfo)
    (url : String) : Bool :=
  match env.lookupCommit url with
  | none => true
  | some currentCommitHash =>
    match stored with
    | none => true
    | some lastCommitInfo =>
      if lastCommitInfo.commitHash ≠ currentCommitHash then true else false

/-- `UpdateManager.updateCommitInfo` (updateManager.ts lines 917-944):
looks the commit hash up again and overwrites the stored checkpoint with
the fresh hash, timestamp and URL; an unobtainable hash logs a warning and
leaves the stored file untouched. -/
def updateCommitInfo (env : NetEnv) (stored : Option CommitInfo)
    (url : String) (now : Nat) : Option CommitInfo :=
  match env.lookupCommit url with
  | none => stored
  | some commitHash => some ⟨commitHash, now, url⟩

/-- Result of one run of `updateDynamicJsonData`: the routine's boolean
verdict, the URL the data was downloaded from (if any), the content
written to the JSON output file (if any), the commit checkpoint after the
run, and the task's configuration after the run. -/
structure DynRunResult where
  success : Bool
  downloadedFrom : Option String
  written : Option String
  stored : Option CommitInfo
  config : UpdateConfig
deriving DecidableEq

/-- `UpdateManager.updateDynamicJsonData` (updateManager.ts lines
476-553): resolve the dynamic URL from the watched source file; when
commit tracking is on and the commit is unchanged, succeed without
downloading; otherwise fetch the resolved URL, `JSON.parse` the body (a
throw is caught and fails the run with nothing written), write the
re-serialized data, and refresh the commit checkpoint.  The routine never
assigns to `config`, which is returned unchanged. -/
def updateDynamicJsonData (env : NetEnv) (config : UpdateConfig)
    (stored : Option CommitInfo) (now : Nat) : DynRunResult :=
  match config.dynamicUrlSource, config.urlPattern, config.jsonOutputFile with
  | some src, some pat, some _out =>
    match extractUrlFromNotebook env src pat with
    | .error _ => ⟨false, none, none, stored, config⟩
    | .ok none => ⟨false, none, none, stored, config⟩
    | .ok (some extractedUrl) =>
      let tracking :=
        config.enableCommitTracking.getD false && config.commitStorageFile.isSome
      if tracking && !checkCommitAndUpdate env stored extractedUrl then
        ⟨true, none, none, stored, config⟩
      else
        match env.fetchText extractedUrl with
        | none => ⟨false, none, none, stored, config⟩
        | some content =>
          match env.parseJson content with
          | none => ⟨false, none, none, stored, config⟩
          | some normalized =>
            let stored2 :=
              if tracking then updateCommitInfo env stored extractedUrl now
              else stored
            ⟨true, some extractedUrl, some normalized, stored2, config⟩
  | _, _, _ => ⟨false, none, none, stored, config⟩

/-- How one invocation of a task's update routine ends, abstracting the
network-dependent branches of `performUpdate`'s `switch`: the promise
resolves with a success flag, or it rejects with an error message. -/
inductive RoutineOutcome where
  | ok : Bool → RoutineOutcome
  | throws : String → RoutineOutcome
deriving DecidableEq

/-- The tail of `UpdateManager.performUpdate` (updateManager.ts lines
271-283): a `true` verdict marks `success` and stamps `lastUpdate`, a
`false` verdict marks `error`, and a thrown error is caught into the
`error` state with the message retained. -/
def applyOutcome (st : UpdateStatus) (o : RoutineOutcome) (now : Nat) :
    UpdateStatus :=
  match o with
  | .ok true => { st with status := .success, lastUpdate := some now }
  | .ok false => { st with status := .error }
  | .throws msg => { st with status := .error, error := some msg }

/-- `this.configs.get(name)` over the insertion-ordered config map. -/
def getConfig (configs : List UpdateConfig) (name : String) :
    Option UpdateConfig :=
  configs.find? fun c => c.name = name

/-- Update the status record stored under `name` (the mutation of the
`statuses` map entry). -/
def setStatus (statuses : List (String × UpdateStatus)) (name : String)
    (f : UpdateStatus → UpdateStatus) : List (String × UpdateStatus) :=
  statuses.map fun e => if e.1 = name then (e.1, f e.2) else e

/-- `this.statuses.get(name)`. -/
def getStatus (statuses : List (String × UpdateStatus)) (name : String) :
    Option UpdateStatus :=
  (statuses.find? fun e => e.1 = name).map Prod.snd

/-- `UpdateManager.performUpdate` (updateManager.ts lines 244-284) with
the routine's outcome supplied by the `routine` oracle: a missing config
or status returns unchanged; otherwise `lastCheck` is stamped, the status
is set to `pending`, the routine runs, and its outcome is folded into the
status.  The whole body sits in a `try`/`catch`, so `performUpdate` itself
never rejects. -/
def performUpdate (routine : String → RoutineOutcome)
    (configs : List UpdateConfig) (statuses : List (String × UpdateStatus))
    (name : String) (now : Nat) : List (String × UpdateStatus) :=
  match getConfig configs name, getStatus statuses name with
  | some _, some _ =>
    setStatus statuses name fun st =>
      applyOutcome { st with lastCheck := some now, status := .pending }
        (routine name) now
  | _, _ => statuses

/-- `UpdateManager.forceUpdateAll` (updateManager.ts lines 788-806):
iterate the configs in insertion order; for each enabled task await
`performUpdate` and record `results[name] = true`; the `catch` recording
`false` fires only if `performUpdate` rejects, which it never does.
Returns the results map and the statuses after all runs. -/
def forceUpdateAll (routine : String → RoutineOutcome)
    (configs : List UpdateConfig) (statuses : List (String × UpdateStatus))
    (now : Nat) : List (String × Bool) × List (String × UpdateStatus) :=
  configs.foldl
    (fun acc config =>
      if config.enabled then
        (acc.1 ++ [(config.name, true)],
          performUpdate routine configs acc.2 config.name now)
      else acc)
    ([], statuses)

/-- `results[name]` lookup in the map returned by `forceUpdateAll`. -/
def lookupResult (rs : List (String × Bool)) (name : String) : Option Bool :=
  (rs.find? fun e => e.1 = name).map Prod.snd

/-- The in-memory state of `UpdateManager` relevant to scheduling:
the config map, the status map, and the names holding an armed timer. -/
structure ManagerState where
  configs : List UpdateConfig
  statuses : List (String × UpdateStatus)
  intervals : List String
deriving DecidableEq

/-- `UpdateManager.startTask` (updateManager.ts lines 219-239), with the
JavaScript run-to-completion semantics made explicit: the call
`this.performUpdate(name)` is not awaited, so only the synchronous prefix
of `performUpdate` runs (stamp `lastCheck`, set the status to `pending`)
before control returns to `startTask`, which then arms the repeating
timer, sets `isRunning`, and projects `nextCheck`.  The asynchronous rest
of the update is a separate later step (`completeTask`). -/
def startTaskSync (state : ManagerState) (name : String) (now : Nat) :
    ManagerState :=
  match getConfig state.configs name with
  | none => state
  | some config =>
    if !config.enabled then state
    else
      match getStatus state.statuses name with
      | none => state
      | some _ =>
        let statuses2 := setStatus state.statuses name fun st =>
          { st with lastCheck := some now, status := .pending }
        let statuses3 := setStatus statuses2 name fun st =>
          { st with isRunning := true,
                    nextCheck := some (now + config.checkInterval) }
        { state with statuses := statuses3,
                     intervals := state.intervals ++ [name] }

/-- `UpdateManager.start` (updateManager.ts lines 184-194): run
`startTask` for every enabled config, in insertion order.  `start` is a
synchronous function, so only the synchronous part of each first run has
happened when it returns. -/
def startAll (state : ManagerState) (now : Nat) : ManagerState :=
  state.configs.foldl
    (fun s config =>
      if config.enabled then startTaskSync s config.name now else s)
    state

/-- The deferred completion of a first run started by `startTaskSync`:
the routine's outcome is folded into the task's status, after `start`
has already returned. -/
def completeTask (state : ManagerState) (name : String) (o : RoutineOutcome)
    (now : Nat) : ManagerState :=
  { state with
      statuses := setStatus state.statuses name fun st => applyOutcome st o now }

/-! ### Helper lemmas about the file-list comparison -/

theorem anyPositionDiffers_self (l : List String) :
    anyPositionDiffers l l = false := by
  induction l with
  | nil => rfl
  | cons x xs ih => simp [anyPositionDiffers, ih]

theorem eq_of_anyPositionDiffers_eq_false :
    ∀ {a b : List String}, anyPositionDiffers a b = false →
      a.length = b.length → a = b
  | [], [], _, _ => rfl
  | x :: xs, y :: ys, h, hlen => by
    simp only [anyPositionDiffers] at h
    by_cases hxy : x = y
    · subst hxy
      simp only [ne_eq, not_true_eq_false, if_false] at h
      have := eq_of_anyPositionDiffers_eq_false h (by simpa using hlen)
      simp [this]
    · simp [hxy] at h

theorem sortStr_perm (l : List String) : List.Perm (sortStr l) l :=
  List.perm_insertionSort _ l

theorem sortStr_sorted (l : List String) : List.Sorted (· ≤ ·) (sortStr l) :=
  List.sorted_insertionSort _ l

theorem sortStr_eq_of_perm {l r : List String} (h : List.Perm l r) :
    sortStr l = sortStr r :=
  List.eq_of_perm_of_sorted
    ((sortStr_perm l).trans (h.trans (sortStr_perm r).symm))
    (sortStr_sorted l) (sortStr_sorted r)

theorem sortStr_length (l : List String) : (sortStr l).length = l.length :=
  (sortStr_perm l).length_eq

theorem compareFileLists_self {l : List String} (h : l ≠ []) :
    compareFileLists l l = false := by
  have hlen : l.length ≠ 0 := by simpa using h
  simp [compareFileLists, hlen, anyPositionDiffers_self]

/-! ### C3 and C10: correctness of the file-list change detector -/

/-- C3: the directory file-list change detector is order-independent:
duplicate-free file-name lists with the same names as sets but given as
different lists are reported as unchanged, and equal-length lists that
differ in at least one name are reported as changed. -/
theorem detectFileListChange_order_independent :
    (∀ l r : List String, l.Nodup → r.Nodup → l ≠ r →
      l.toFinset = r.toFinset → detectFileListChange l r = false) ∧
    (∀ l r : List String, l.length = r.length → l.toFinset ≠ r.toFinset →
      detectFileListChange l r = true) := by
  constructor
  · intro l r hl hr hne hset
    have hperm : List.Perm l r := by
      rw [List.perm_ext_iff_of_nodup hl hr]
      intro a
      rw [← List.mem_toFinset, ← List.mem_toFinset, hset]
    have hnil : l ≠ [] := by
      intro h0
      subst h0
      have : r.toFinset = ∅ := by simpa using hset.symm
      exact hne ((List.toFinset_eq_empty_iff r).mp this).symm
    have hsort : sortStr l = sortStr r := sortStr_eq_of_perm hperm
    have hsnil : sortStr l ≠ [] := by
      intro h0
      exact hnil ((h0 ▸ sortStr_perm l : List.Perm [] l).symm.eq_nil)
    unfold detectFileListChange
    rw [← hsort]
    exact compareFileLists_self hsnil
  · intro l r hlen hset
    by_cases hnil : l = []
    · subst hnil
      have : r = [] := List.length_eq_zero.mp hlen.symm
      subst this
      exact absurd rfl hset
    · have hslen : (sortStr l).length = (sortStr r).length := by
        rw [sortStr_length, sortStr_length, hlen]
      have hne : sortStr l ≠ sortStr r := by
        intro heq
        apply hset
        have hperm : List.Perm l r :=
          ((sortStr_perm l).symm.trans (heq ▸ sortStr_perm r))
        exact List.toFinset_eq_of_perm _ _ hperm
      have hdiff : anyPositionDiffers (sortStr l) (sortStr r) = true := by
        by_contra hfalse
        exact hne (eq_of_anyPositionDiffers_eq_false
          (Bool.eq_false_iff.mpr hfalse |>.symm ▸ rfl) hslen)
      have hlnil : (sortStr l).length ≠ 0 := by
        rw [sortStr_length]
        simpa using hnil
      simp [detectFileListChange, compareFileLists, hlnil, hslen, hdiff]

/-- Witness for C3 at the spec's own example lists. -/
theorem detectFileListChange_order_independent_witness :
    detectFileListChange ["a", "b", "c"] ["c", "b", "a"] = false ∧
    detectFileListChange ["a", "b", "c"] ["a", "b", "d"] = true :=
  ⟨detectFileListChange_order_independent.1 _ _ (by decide) (by decide)
      (by decide) (by decide),
    detectFileListChange_order_independent.2 _ _ (by decide) (by decide)⟩

/-- C10: whenever the stored/local list is empty the detector reports
"changed", for every remote list, including the empty one — in all three
concrete detector entry points of the code. -/
theorem emptyLocal_always_changed :
    (∀ r : List String, compareFileLists [] r = true) ∧
    (∀ r : List String, detectFileListChange [] r = true) ∧
    (∀ files : List GitHubFile, hasFileChanges [] files = true) :=
  ⟨fun _ => rfl, fun _ => rfl, fun _ => rfl⟩

/-! ### Helper lemmas about the file system model -/

theorem containsKey_write (fs : FileSys) (n m c : String) :
    containsKey (writeFileEntry fs m c) n = (decide (m = n) || containsKey fs n) := by
  simp [containsKey, writeFileEntry]

theorem lookupFile_write_ne {m n : String} (fs : FileSys) (c : String)
    (h : m ≠ n) : lookupFile (writeFileEntry fs m c) n = lookupFile fs n := by
  simp [lookupFile, writeFileEntry, List.find?_cons, h]

/-- Names already present stay present through the download loop. -/
theorem downloadFilesGo_mono (env : NetEnv) :
    ∀ (l : List GitHubFile) (fs : FileSys) (n : String),
      containsKey fs n = true →
      containsKey (downloadFilesGo env l fs).1 n = true := by
  intro l
  induction l with
  | nil => intro fs n h; exact h
  | cons f rest ih =>
    intro fs n h
    simp only [downloadFilesGo]
    by_cases hc : containsKey fs f.name
    · simp only [hc, if_true]
      exact ih fs n h
    · simp only [hc, if_false]
      cases hfetch : env.fetchBinary f.download_url with
      | none => exact ih fs n h
      | some content =>
        have h2 : containsKey (writeFileEntry fs f.name content) n = true := by
          rw [containsKey_write, h]
          simp
        simpa using ih (writeFileEntry fs f.name content) n h2

/-- The contents of a file already present before the download loop are
unchanged by it: only missing names are ever written. -/
theorem downloadFilesGo_preserves (env : NetEnv) :
    ∀ (l : List GitHubFile) (fs : FileSys) (n : String),
      containsKey fs n = true →
      lookupFile (downloadFilesGo env l fs).1 n = lookupFile fs n := by
  intro l
  induction l with
  | nil => intro fs n _; rfl
  | cons f rest ih =>
    intro fs n h
    simp only [downloadFilesGo]
    by_cases hc : containsKey fs f.name
    · simp only [hc, if_true]
      exact ih fs n h
    · simp only [hc, if_false]
      cases hfetch : env.fetchBinary f.download_url with
      | none => exact ih fs n h
      | some content =>
        have hne : f.name ≠ n := by
          intro he
          rw [he] at hc
          exact hc h
        have h2 : containsKey (writeFileEntry fs f.name content) n = true := by
          rw [containsKey_write, h]
          simp
        have := ih (writeFileEntry fs f.name content) n h2
        simpa [lookupFile_write_ne fs content hne] using this

/-! ### C8: the additive-only mirror never touches existing files -/

/-- C8: a remote file whose name already exists locally is skipped — the
result is "not downloaded" with the file system returned unchanged, for
every remote size; and across the whole per-file download loop every
pre-existing file keeps its exact content. -/
theorem existing_file_never_overwritten :
    (∀ (env : NetEnv) (fs : FileSys) (file : GitHubFile),
      containsKey fs file.name = true →
      ∀ s : Nat, downloadFile env fs { file with size := s } = .ok (false, fs)) ∧
    (∀ (env : NetEnv) (l : List GitHubFile) (fs : FileSys) (n : String),
      containsKey fs n = true →
      lookupFile (downloadFilesGo env l fs).1 n = lookupFile fs n) := by
  constructor
  · intro env fs file h s
    simp [downloadFile, h]
  · intro env l fs n h
    exact downloadFilesGo_preserves env l fs n h

/-- Witness for C8: a local `foo.png` with content `"OLD"`, a remote entry
of the same name with a different size: the downloader skips it and the
local content stays `"OLD"`. -/
theorem existing_file_never_overwritten_witness :
    downloadFile
        ⟨fun _ => none, fun _ => some "NEW", fun _ => none, fun _ => none,
          fun _ _ => none⟩
        [("foo.png", "OLD")]
        { name := "foo.png", path := "p", download_url := "u", size := 999,
          type := "file" } = .ok (false, [("foo.png", "OLD")]) ∧
    lookupFile
        (downloadFilesGo
          ⟨fun _ => none, fun _ => some "NEW", fun _ => none, fun _ => none,
            fun _ _ => none⟩
          [{ name := "foo.png", path := "p", download_url := "u", size := 999,
             type := "file" }]
          [("foo.png", "OLD")]).1 "foo.png" = some "OLD" := by
  constructor
  · exact existing_file_never_overwritten.1 _ _
      { name := "foo.png", path := "p", download_url := "u", size := 123,
        type := "file" } (by decide) 999
  · rw [existing_file_never_overwritten.2 _ _ _ _ (by decide)]
    decide

/-! ### C7: fail-open on the 403 rate limit -/

/-- C7: when the directory-listing API answers HTTP 403, the listing fetch
of `UnifiedDownloader` yields the empty list instead of throwing, and a
github-type task run warns, downloads nothing, leaves the file system
untouched, and completes in the success state. -/
theorem rateLimit_fail_open :
    (∀ config : UpdateConfig,
      getGitHubFileList config .rateLimited = .ok []) ∧
    (∀ (env : NetEnv) (config : UpdateConfig) (st : UpdateStatus)
        (fs : FileSys) (now : Nat),
      config.githubRepo.isNone = false →
      config.githubPath.isNone = false →
      config.localPath.isNone = false →
      performUpdateGithub env config .rateLimited st fs now =
        ⟨{ st with
            lastCheck := some now
            status := .success
            lastUpdate := some now }, fs, 0, true⟩) := by
  constructor
  · intro config
    rfl
  · intro env config st fs now h1 h2 h3
    simp [performUpdateGithub, updateGitHubFiles, checkGitHubUpdates, h1, h2, h3]

/-! ### Helper lemmas about the status map -/

theorem getStatus_setStatus (statuses : List (String × UpdateStatus))
    (name : String) (f : UpdateStatus → UpdateStatus) :
    getStatus (setStatus statuses name f) name = (getStatus statuses name).map f := by
  induction statuses with
  | nil => rfl
  | cons e rest ih =>
    by_cases he : e.1 = name
    · simp [getStatus, setStatus, List.find?_cons, he]
    · simp only [getStatus, setStatus, List.map_cons, if_neg he] at *
      rw [List.find?_cons, List.find?_cons]
      simp only [he, decide_eq_false he]
      exact ih

/-- The results list accumulated by `forceUpdateAll`'s fold. -/
theorem forceUpdateAll_fold_results (routine : String → RoutineOutcome)
    (configs : List UpdateConfig) (now : Nat) :
    ∀ (todo : List UpdateConfig) (acc : List (String × Bool))
      (ss : List (String × UpdateStatus)),
      (todo.foldl
        (fun acc config =>
          if config.enabled then
            (acc.1 ++ [(config.name, true)],
              performUpdate routine configs acc.2 config.name now)
          else acc)
        (acc, ss)).1 =
      acc ++ (todo.filter fun c => c.enabled).map fun c => (c.name, true) := by
  intro todo
  induction todo with
  | nil => intro acc ss; simp
  | cons c rest ih =>
    intro acc ss
    by_cases hc : c.enabled
    · simp only [List.foldl_cons, hc, if_true, List.filter_cons_of_pos hc,
        List.map_cons]
      rw [ih]
      simp
    · simp only [List.foldl_cons, hc, if_false, Bool.false_eq_true,
        List.filter_cons_of_neg hc]
      exact ih acc ss

/-! ### C1: forceUpdateAll under a throwing task -/

/-- The concrete three-task scenario of the claim: tasks A, B, C are all
enabled and registered, and B's update routine always throws. -/
def cfgNamed (n : String) : UpdateConfig :=
  { name := n, type := .github, enabled := true, checkInterval := 1000 }

def statusInit (n : String) : UpdateStatus :=
  { name := n, isRunning := false, status := .disabled }

def routineBThrows (n : String) : RoutineOutcome :=
  if n = "B" then .throws "boom" else .ok true

def configsABC : List UpdateConfig := [cfgNamed "A", cfgNamed "B", cfgNamed "C"]

def statusesABC : List (String × UpdateStatus) :=
  [("A", statusInit "A"), ("B", statusInit "B"), ("C", statusInit "C")]

/-- C1 counterexample: with three enabled tasks A, B, C where B's update
routine throws, `forceUpdateAll` maps B to `true`, not `false` — the
exception is swallowed inside `performUpdate`, which records it only in
B's status (`error` state); A and C also map to `true`. -/
theorem forceUpdateAll_throwing_task_maps_true :
    lookupResult (forceUpdateAll routineBThrows configsABC statusesABC 0).1 "B" =
        some true ∧
    lookupResult (forceUpdateAll routineBThrows configsABC statusesABC 0).1 "A" =
        some true ∧
    lookupResult (forceUpdateAll routineBThrows configsABC statusesABC 0).1 "C" =
        some true ∧
    (getStatus (forceUpdateAll routineBThrows configsABC statusesABC 0).2 "B").map
        UpdateStatus.status = some .error := by
  refine ⟨?_, ?_, ?_, ?_⟩ <;> decide

/-- C1 amended: `forceUpdateAll` runs every enabled task and returns one
entry per enabled task, every entry `true` — also for a task whose routine
throws, because `performUpdate` catches the exception; the failure is
recorded in that task's status instead, as the `error` state with the
message retained. -/
theorem forceUpdateAll_results_all_true :
    (∀ (routine : String → RoutineOutcome) (configs : List UpdateConfig)
        (statuses : List (String × UpdateStatus)) (now : Nat),
      (forceUpdateAll routine configs statuses now).1 =
        (configs.filter fun c => c.enabled).map fun c => (c.name, true)) ∧
    (∀ (routine : String → RoutineOutcome) (configs : List UpdateConfig)
        (statuses : List (String × UpdateStatus)) (name : String) (now : Nat)
        (msg : String) (c : UpdateConfig) (st : UpdateStatus),
      routine name = .throws msg →
      getConfig configs name = some c →
      getStatus statuses name = some st →
      getStatus (performUpdate routine configs statuses name now) name =
        some { st with
                lastCheck := some now
                status := .error
                error := some msg }) := by
  constructor
  · intro routine configs statuses now
    unfold forceUpdateAll
    simpa using forceUpdateAll_fold_results routine configs now configs [] statuses
  · intro routine configs statuses name now msg c st hthrow hcfg hst
    unfold performUpdate
    rw [hcfg, hst]
    rw [getStatus_setStatus, hst]
    simp [applyOutcome, hthrow]

/-- Witness for C1 (amended): the three-task scenario evaluated through
the theorem. -/
theorem forceUpdateAll_results_all_true_witness :
    (forceUpdateAll routineBThrows configsABC statusesABC 0).1 =
      [("A", true), ("B", true), ("C", true)] ∧
    getStatus (performUpdate routineBThrows configsABC statusesABC "B" 0) "B" =
      some { name := "B", isRunning := false, lastCheck := some 0,
              status := .error, error := some "boom" } := by
  constructor
  · rw [forceUpdateAll_results_all_true.1 routineBThrows configsABC statusesABC 0]
    decide
  · rw [forceUpdateAll_results_all_true.2 routineBThrows configsABC statusesABC
      "B" 0 "boom" (cfgNamed "B") (statusInit "B") (by decide) (by decide)
      (by decide)]
    decide

/-! ### C6: start() does not await the first run -/

/-- A single enabled github task whose first run will fail (any outcome
works: the status visible when `start` returns is the same). -/
def cfgSprite : UpdateConfig :=
  { name := "sprite", type := .github, enabled := true,
    checkInterval := 86400000,
    githubRepo := some "Nikke-db/Nikke-db.github.io",
    githubPath := some "images/sprite",
    localPath := some "src/assets/images/sprite" }

def stateSprite : ManagerState :=
  { configs := [cfgSprite],
    statuses := [("sprite", statusInit "sprite")],
    intervals := [] }

/-- C6 counterexample: when `start()` returns, the enabled task's first
run has only been started, not awaited: its status is `pending` — not the
`error` a failing first run would produce — while the repeating timer is
already armed.  A first-run failure is therefore not observable in the
task's status by the time `start()` returns. -/
theorem start_does_not_await_first_run :
    (getStatus (startAll stateSprite 0).statuses "sprite").map
        UpdateStatus.status = some .pending ∧
    (startAll stateSprite 0).intervals = ["sprite"] ∧
    StatusKind.pending ≠ StatusKind.error := by
  refine ⟨?_, ?_, ?_⟩ <;> decide

/-- C6 amended: `start()` launches each enabled task's first run
fire-and-forget: the run's synchronous prefix marks the task `pending`,
then the repeating timer is armed immediately (`isRunning`, `nextCheck`
projected one interval ahead); the first run's outcome — in particular a
failure — reaches the status only in a later completion step, after
`start()` has returned. -/
theorem startTask_fire_and_forget :
    ∀ (state : ManagerState) (name : String) (config : UpdateConfig)
      (st : UpdateStatus) (now : Nat),
      getConfig state.configs name = some config →
      config.enabled = true →
      getStatus state.statuses name = some st →
      (getStatus (startTaskSync state name now).statuses name =
        some { st with
                lastCheck := some now
                status := .pending
                isRunning := true
                nextCheck := some (now + config.checkInterval) } ∧
      (startTaskSync state name now).intervals = state.intervals ++ [name] ∧
      ∀ (msg : String) (later : Nat),
        getStatus (completeTask (startTaskSync state name now) name
            (.throws msg) later).statuses name =
          some { st with
                  lastCheck := some now
                  status := .error
                  error := some msg
                  isRunning := true
                  nextCheck := some (now + config.checkInterval) }) := by
  intro state name config st now hcfg hen hst
  have hrun : startTaskSync state name now =
      { state with
          statuses := setStatus
            (setStatus state.statuses name fun s =>
              { s with lastCheck := some now, status := .pending })
            name fun s =>
            { s with
                isRunning := true
                nextCheck := some (now + config.checkInterval) },
          intervals := state.intervals ++ [name] } := by
    unfold startTaskSync
    rw [hcfg, hst]
    simp [hen]
  refine ⟨?_, ?_, ?_⟩
  · rw [hrun]
    simp only [getStatus_setStatus, hst]
    rfl
  · rw [hrun]
  · intro msg later
    unfold completeTask
    rw [hrun]
    simp only [getStatus_setStatus, hst]
    rfl

/-- Witness for C6 (amended), at the single-task scenario. -/
theorem startTask_fire_and_forget_witness :
    getStatus (startTaskSync stateSprite "sprite" 3).statuses "sprite" =
      some { name := "sprite", isRunning := true, lastCheck := some 3,
              nextCheck := some (3 + 86400000), status := .pending } ∧
    getStatus (completeTask (startTaskSync stateSprite "sprite" 3) "sprite"
        (.throws "fetch failed") 9).statuses "sprite" =
      some { name := "sprite", isRunning := true, lastCheck := some 3,
              nextCheck := some (3 + 86400000), status := .error,
              error := some "fetch failed" } := by
  have h := startTask_fire_and_forget stateSprite "sprite" cfgSprite
    (statusInit "sprite") 3 (by decide) (by decide) (by decide)
  exact ⟨h.1, h.2.2 "fetch failed" 9⟩

/-! ### C2: what happens to a payload that fails JSON parsing -/

/-- An environment in which the snapshot source answers with a body that
is not valid JSON (`parseJson` always fails), and a watched file resolves
to that same snapshot source. -/
def envBadJson : NetEnv :=
  ⟨fun url =>
      if url = "https://snapshot.example/a.json" then some "oops not json"
      else if url = "https://watched.example/api.js" then some "SRCTXT"
      else none,
    fun _ => none,
    fun _ => none,
    fun _ => none,
    fun pat txt =>
      if pat = "PAT" then
        if txt = "SRCTXT" then some "https://snapshot.example/a.json" else none
      else none⟩

def cfgJsonSnap : UpdateConfig :=
  { name := "characters", type := .json, enabled := true,
    checkInterval := 86400000,
    jsonSources := some ["https://snapshot.example/a.json"],
    jsonOutputFile := some "out.json" }

def cfgDynSnap : UpdateConfig :=
  { name := "characters-tw", type := .dynamicJson, enabled := true,
    checkInterval := 86400000,
    dynamicUrlSource := some "https://watched.example/api.js",
    urlPattern := some "PAT",
    jsonOutputFile := some "out.json" }

/-- C2 counterexample: in `UpdateManager.updateJsonData` and
`UpdateManager.updateDynamicJsonData` a snapshot body that fails JSON
parsing is NOT written as raw text: the run counts a failure and writes
nothing at all, so the fetched payload is lost.  (Only
`UnifiedDownloader.downloadUrlContent` has the raw-text fallback.) -/
theorem parse_failure_payload_discarded :
    updateJsonData envBadJson cfgJsonSnap [] = .ok (false, []) ∧
    (updateDynamicJsonData envBadJson cfgDynSnap none 0).written = none ∧
    (updateDynamicJsonData envBadJson cfgDynSnap none 0).success = false := by
  refine ⟨?_, ?_, ?_⟩ <;> rfl

/-- C2 amended: only `UnifiedDownloader.downloadUrlContent` falls back to
writing the raw response text verbatim when JSON parsing fails; the
snapshot routines of `UpdateManager` (`updateJsonData`,
`updateDynamicJsonData`) instead treat a parse failure as a failed source
and write nothing. -/
theorem raw_text_fallback_location :
    (∀ (env : NetEnv) (url out : String) (fs : FileSys) (content : String),
      env.fetchText url = some content →
      env.parseJson content = none →
      downloadUrlContent env url out fs =
        .ok (true, writeFileEntry fs out content)) ∧
    (∀ (env : NetEnv) (out source content : String) (fs : FileSys),
      env.fetchText source = some content →
      env.parseJson content = none →
      updateJsonSourcesGo env out [source] fs = (fs, 0, 1)) := by
  constructor
  · intro env url out fs content hfetch hparse
    simp [downloadUrlContent, hfetch, hparse]
  · intro env out source content fs hfetch hparse
    simp [updateJsonSourcesGo, hfetch, hparse]

/-- Witness for C2 (amended): the unparseable body is written verbatim by
`downloadUrlContent` and discarded with a failure count by the
`updateJsonData` loop. -/
theorem raw_text_fallback_location_witness :
    downloadUrlContent envBadJson "https://snapshot.example/a.json" "out.json"
        [] = .ok (true, [("out.json", "oops not json")]) ∧
    updateJsonSourcesGo envBadJson "out.json"
        ["https://snapshot.example/a.json"] [] = ([], 0, 1) :=
  ⟨raw_text_fallback_location.1 envBadJson "https://snapshot.example/a.json"
      "out.json" [] "oops not json" (by decide) rfl,
    raw_text_fallback_location.2 envBadJson "out.json"
      "https://snapshot.example/a.json" "oops not json" [] (by decide) rfl⟩

/-! ### C4: the commit-checkpoint round trip -/

/-- C4: with checkpoint `abc123` persisted, a lookup answering `abc123`
again yields no change and no re-download, the checkpoint staying intact;
a lookup answering `def456` yields a download from the resolved URL and,
after the successful download, a persisted checkpoint holding `def456`. -/
theorem commit_checkpoint_round_trip :
    ∀ (env : NetEnv) (config : UpdateConfig) (t now : Nat) (u : String)
      (src pat out dataUrl text : String),
      config.dynamicUrlSource = some src →
      config.urlPattern = some pat →
      config.jsonOutputFile = some out →
      config.enableCommitTracking = some true →
      config.commitStorageFile.isSome = true →
      env.fetchText src = some text →
      env.applyPattern pat text = some dataUrl →
      ((env.lookupCommit dataUrl = some "abc123" →
        updateDynamicJsonData env config (some ⟨"abc123", t, u⟩) now =
          ⟨true, none, none, some ⟨"abc123", t, u⟩, config⟩) ∧
      (∀ content norm : String,
        env.lookupCommit dataUrl = some "def456" →
        env.fetchText dataUrl = some content →
        env.parseJson content = some norm →
        updateDynamicJsonData env config (some ⟨"abc123", t, u⟩) now =
          ⟨true, some dataUrl, some norm, some ⟨"def456", now, dataUrl⟩,
            config⟩)) := by
  intro env config t now u src pat out dataUrl text hsrc hpat hout htrack
    hstore hfetch happly
  constructor
  · intro hlook
    simp [updateDynamicJsonData, extractUrlFromNotebook, hsrc, hpat, hout,
      htrack, hstore, hfetch, happly, checkCommitAndUpdate, hlook]
  · intro content norm hlook hfetch2 hparse
    simp [updateDynamicJsonData, extractUrlFromNotebook, hsrc, hpat, hout,
      htrack, hstore, hfetch, happly, checkCommitAndUpdate, hlook, hfetch2,
      hparse, updateCommitInfo]

def cfgCommitTrack : UpdateConfig :=
  { name := "characters-tw", type := .dynamicJson, enabled := true,
    checkInterval := 86400000,
    dynamicUrlSource := some "https://watched.example/api.js",
    urlPattern := some "PAT",
    jsonOutputFile := some "out.json",
    enableCommitTracking := some true,
    commitStorageFile := some "commit-info-tw.json" }

/-- Environment whose commit lookup still answers the stored hash. -/
def envSameCommit : NetEnv :=
  ⟨fun url =>
      if url = "https://watched.example/api.js" then some "SRCTXT"
      else if url = "https://data.example/x.json" then some "RAW" else none,
    fun _ => none,
    fun content => if content = "RAW" then some "NORM" else none,
    fun _ => some "abc123",
    fun pat txt =>
      if pat = "PAT" then
        if txt = "SRCTXT" then some "https://data.example/x.json" else none
      else none⟩

/-- Environment whose commit lookup answers a fresh hash. -/
def envNewCommit : NetEnv :=
  ⟨fun url =>
      if url = "https://watched.example/api.js" then some "SRCTXT"
      else if url = "https://data.example/x.json" then some "RAW" else none,
    fun _ => none,
    fun content => if content = "RAW" then some "NORM" else none,
    fun _ => some "def456",
    fun pat txt =>
      if pat = "PAT" then
        if txt = "SRCTXT" then some "https://data.example/x.json" else none
      else none⟩

/-- Witness for C4: the round trip evaluated at concrete environments, one
whose lookup repeats `abc123` and one whose lookup answers `def456`. -/
theorem commit_checkpoint_round_trip_witness :
    updateDynamicJsonData envSameCommit cfgCommitTrack
        (some ⟨"abc123", 5, "old"⟩) 9 =
      ⟨true, none, none, some ⟨"abc123", 5, "old"⟩, cfgCommitTrack⟩ ∧
    updateDynamicJsonData envNewCommit cfgCommitTrack
        (some ⟨"abc123", 5, "old"⟩) 9 =
      ⟨true, some "https://data.example/x.json", some "NORM",
        some ⟨"def456", 9, "https://data.example/x.json"⟩, cfgCommitTrack⟩ := by
  constructor
  · exact (commit_checkpoint_round_trip envSameCommit cfgCommitTrack 5 9 "old"
      "https://watched.example/api.js" "PAT" "out.json"
      "https://data.example/x.json" "SRCTXT" rfl rfl rfl rfl rfl (by decide)
      (by decide)).1 (by decide)
  · exact (commit_checkpoint_round_trip envNewCommit cfgCommitTrack 5 9 "old"
      "https://watched.example/api.js" "PAT" "out.json"
      "https://data.example/x.json" "SRCTXT" rfl rfl rfl rfl rfl (by decide)
      (by decide)).2 "RAW" "NORM" (by decide) (by decide) (by decide)

/-! ### C5: dynamic URL re-resolution -/

/-- Environment in which the watched file's content now yields a new URL
under the extraction pattern, and that new URL serves valid JSON. -/
def envNewUrl : NetEnv :=
  ⟨fun url =>
      if url = "https://watched.example/api.js" then some "SRC-WITH-NEW-URL"
      else if url = "https://new.example/data.json" then some "RAW" else none,
    fun _ => none,
    fun content => if content = "RAW" then some "NORM" else none,
    fun _ => none,
    fun pat txt =>
      if pat = "PAT" then
        if txt = "SRC-WITH-NEW-URL" then some "https://new.example/data.json"
        else none
      else none⟩

def cfgDynPlain : UpdateConfig :=
  { name := "characters-tw", type := .dynamicJson, enabled := true,
    checkInterval := 86400000,
    dynamicUrlSource := some "https://watched.example/api.js",
    urlPattern := some "PAT",
    jsonOutputFile := some "out.json",
    enableCommitTracking := some false }

/-- C5 counterexample: the run does download from the freshly extracted
URL, but the task's configuration — its remote locator included — is left
exactly as before the run: no configuration field holds the new URL
(`dynamicUrlSource` still names the watched file, `jsonSources` is still
absent).  The new URL is not reflected in the task's configuration. -/
theorem dynamic_url_config_not_updated :
    (updateDynamicJsonData envNewUrl cfgDynPlain none 0).downloadedFrom =
        some "https://new.example/data.json" ∧
    (updateDynamicJsonData envNewUrl cfgDynPlain none 0).config = cfgDynPlain ∧
    cfgDynPlain.dynamicUrlSource = some "https://watched.example/api.js" ∧
    cfgDynPlain.jsonSources = none ∧
    (some "https://watched.example/api.js" : Option String) ≠
        some "https://new.example/data.json" := by
  refine ⟨rfl, rfl, rfl, rfl, by decide⟩

/-- C5 amended: each run of a dynamic-JSON task re-extracts the URL from
the watched file, so when the pattern captures a new URL and the commit
check does not report "unchanged" (tracking off, or the check says
update), the run downloads from the new URL; the task's configuration is
not modified by the run — the extracted URL is recorded only in the
persisted commit info, when tracking is enabled. -/
theorem dynamic_url_re_resolution :
    ∀ (env : NetEnv) (config : UpdateConfig) (stored : Option CommitInfo)
      (now : Nat) (src pat out text newUrl content norm : String),
      config.dynamicUrlSource = some src →
      config.urlPattern = some pat →
      config.jsonOutputFile = some out →
      env.fetchText src = some text →
      env.applyPattern pat text = some newUrl →
      (config.enableCommitTracking.getD false = false ∨
        checkCommitAndUpdate env stored newUrl = true) →
      env.fetchText newUrl = some content →
      env.parseJson content = some norm →
      ((updateDynamicJsonData env config stored now).downloadedFrom =
          some newUrl ∧
        (updateDynamicJsonData env config stored now).config = config ∧
        (config.enableCommitTracking.getD false = true →
          config.commitStorageFile.isSome = true →
          env.lookupCommit newUrl = some "h7" →
          (updateDynamicJsonData env config stored now).stored =
            some ⟨"h7", now, newUrl⟩)) := by
  intro env config stored now src pat out text newUrl content norm hsrc hpat
    hout hfetch happly hgo hfetch2 hparse
  refine ⟨?_, ?_, ?_⟩
  · rcases hgo with hoff | hchk
    · simp [updateDynamicJsonData, extractUrlFromNotebook, hsrc, hpat, hout,
        hfetch, happly, hfetch2, hparse, hoff]
    · simp [updateDynamicJsonData, extractUrlFromNotebook, hsrc, hpat, hout,
        hfetch, happly, hfetch2, hparse, hchk]
  · rcases hgo with hoff | hchk
    · simp [updateDynamicJsonData, extractUrlFromNotebook, hsrc, hpat, hout,
        hfetch, happly, hfetch2, hparse, hoff]
    · simp [updateDynamicJsonData, extractUrlFromNotebook, hsrc, hpat, hout,
        hfetch, happly, hfetch2, hparse, hchk]
  · intro htrack hstore hlook
    rcases hgo with hoff | hchk
    · rw [hoff] at htrack
      exact absurd htrack (by decide)
    · simp [updateDynamicJsonData, extractUrlFromNotebook, hsrc, hpat, hout,
        hfetch, happly, hfetch2, hparse, hchk, htrack, hstore,
        updateCommitInfo, hlook]

/-- Witness for C5 (amended): the new-URL scenario evaluated through the
theorem, with commit tracking disabled. -/
theorem dynamic_url_re_resolution_witness :
    (updateDynamicJsonData envNewUrl cfgDynPlain none 4).downloadedFrom =
        some "https://new.example/data.json" ∧
    (updateDynamicJsonData envNewUrl cfgDynPlain none 4).config =
        cfgDynPlain := by
  have h := dynamic_url_re_resolution envNewUrl cfgDynPlain none 4
    "https://watched.example/api.js" "PAT" "out.json" "SRC-WITH-NEW-URL"
    "https://new.example/data.json" "RAW" "NORM" rfl rfl rfl (by decide)
    (by decide) (Or.inl rfl) (by decide) (by decide)
  exact ⟨h.1, h.2.1⟩

/-! ### C9: idempotence of the directory mirror -/

/-- After the download loop, every file of the batch whose fetch succeeds
is present locally. -/
theorem downloadFilesGo_all_present (env : NetEnv) :
    ∀ (l : List GitHubFile) (fs : FileSys),
      (∀ f ∈ l, (env.fetchBinary f.download_url).isSome = true) →
      ∀ f ∈ l, containsKey (downloadFilesGo env l fs).1 f.name = true := by
  intro l
  induction l with
  | nil => intro fs _ f hf; cases hf
  | cons g rest ih =>
    intro fs hok f hf
    simp only [downloadFilesGo]
    by_cases hc : containsKey fs g.name
    · rcases List.mem_cons.mp hf with rfl | hfr
      · simp only [hc, if_true]
        exact downloadFilesGo_mono env rest fs f.name hc
      · simp only [hc, if_true]
        exact ih fs (fun x hx => hok x (List.mem_cons_of_mem _ hx)) f hfr
    · have hsome := hok g (List.mem_cons_self g rest)
      cases hfetch : env.fetchBinary g.download_url with
      | none => rw [hfetch] at hsome; cases hsome
      | some content =>
        simp only [hc, if_false, hfetch]
        rcases List.mem_cons.mp hf with rfl | hfr
        · have hin : containsKey (writeFileEntry fs f.name content) f.name = true := by
            rw [containsKey_write]
            simp
          simpa using downloadFilesGo_mono env rest _ f.name hin
        · simpa using ih (writeFileEntry fs g.name content)
            (fun x hx => hok x (List.mem_cons_of_mem _ hx)) f hfr

/-- A batch each of whose files already exists locally downloads nothing
and leaves the file system untouched. -/
theorem downloadFilesGo_all_skipped (env : NetEnv) :
    ∀ (l : List GitHubFile) (fs : FileSys),
      (∀ f ∈ l, containsKey fs f.name = true) →
      downloadFilesGo env l fs = (fs, 0) := by
  intro l
  induction l with
  | nil => intro fs _; rfl
  | cons g rest ih =>
    intro fs h
    have hg := h g (List.mem_cons_self g rest)
    simp only [downloadFilesGo, hg, if_true]
    exact ih fs fun f hf => h f (List.mem_cons_of_mem _ hf)

/-- Starting from a state containing none of the batch, a fully
successful download loop produces exactly the batch's names (as a
permutation) on top of the initial names. -/
theorem downloadFilesGo_keys_perm (env : NetEnv) :
    ∀ (l : List GitHubFile) (fs : FileSys),
      (∀ f ∈ l, (env.fetchBinary f.download_url).isSome = true) →
      (∀ f ∈ l, containsKey fs f.name = false) →
      (l.map GitHubFile.name).Nodup →
      List.Perm ((downloadFilesGo env l fs).1.map Prod.fst)
        (l.map GitHubFile.name ++ fs.map Prod.fst) := by
  intro l
  induction l with
  | nil => intro fs _ _ _; simp [downloadFilesGo]
  | cons g rest ih =>
    intro fs hok habs hnd
    have hcg : containsKey fs g.name = false := habs g (List.mem_cons_self g rest)
    have hsome := hok g (List.mem_cons_self g rest)
    have hnd2 : (g.name ∉ rest.map GitHubFile.name) ∧
        (rest.map GitHubFile.name).Nodup := by
      rw [List.map_cons, List.nodup_cons] at hnd
      exact hnd
    cases hfetch : env.fetchBinary g.download_url with
    | none => rw [hfetch] at hsome; cases hsome
    | some content =>
      simp only [downloadFilesGo, hcg, if_false, hfetch]
      have habs2 : ∀ f ∈ rest,
          containsKey (writeFileEntry fs g.name content) f.name = false := by
        intro f hf
        rw [containsKey_write]
        have hne : g.name ≠ f.name := by
          intro he
          exact hnd2.1 (he ▸ List.mem_map_of_mem GitHubFile.name hf)
        simp [hne, habs f (List.mem_cons_of_mem _ hf)]
      have hih := ih (writeFileEntry fs g.name content)
        (fun x hx => hok x (List.mem_cons_of_mem _ hx)) habs2 hnd2.2
      have hkeys : (writeFileEntry fs g.name content).map Prod.fst =
          g.name :: fs.map Prod.fst := rfl
      rw [hkeys] at hih
      simpa using hih.trans List.perm_middle

/-- C9: idempotence of the directory mirror.  If the first run of a
github-type task from an empty local directory succeeds (every fetched
file arrives), the second run with the unchanged remote listing performs
zero downloads and leaves the file system identical; and — under the
directory-listing invariants (unique names, no dotfiles, nonempty) — the
file-list change detector independently reports no change on the second
run. -/
theorem directory_mirror_idempotent :
    ∀ (env : NetEnv) (config : UpdateConfig) (files : List GitHubFile)
      (r1 : GithubRunResult),
      (∀ f ∈ githubValidFiles config files,
        (env.fetchBinary f.download_url).isSome = true) →
      updateGitHubFiles env config (.ok files) [] = .ok r1 →
      (updateGitHubFiles env config (.ok files) r1.fs =
        .ok ⟨true, r1.fs, 0, false⟩ ∧
      (((githubValidFiles config files).map GitHubFile.name).Nodup →
        (∀ f ∈ githubValidFiles config files, startsWithDot f.name = false) →
        githubValidFiles config files ≠ [] →
        checkGitHubUpdates config (.ok files) r1.fs = .ok ⟨false, false⟩)) := by
  intro env config files r1 hok hrun1
  by_cases hinc : (config.githubRepo.isNone || config.githubPath.isNone ||
      config.localPath.isNone) = true
  · rw [updateGitHubFiles, if_pos hinc] at hrun1
    cases hrun1
  · have hincf : (config.githubRepo.isNone || config.githubPath.isNone ||
        config.localPath.isNone) = false := by
      simp only [Bool.not_eq_true] at hinc
      exact hinc
    have hcheck1 : checkGitHubUpdates config (.ok files) [] = .ok ⟨true, false⟩ := rfl
    have hrun1eq : updateGitHubFiles env config (.ok files) [] =
        .ok ⟨true, (downloadFilesGo env (githubValidFiles config files) []).1,
          (downloadFilesGo env (githubValidFiles config files) []).2, false⟩ := by
      rw [updateGitHubFiles, if_neg hinc, hcheck1]
      simp [downloadGitHubFiles]
    rw [hrun1eq] at hrun1
    have hr1 : r1 = ⟨true, (downloadFilesGo env (githubValidFiles config files) []).1,
        (downloadFilesGo env (githubValidFiles config files) []).2, false⟩ := by
      cases hrun1
      rfl
    have hall : ∀ f ∈ githubValidFiles config files,
        containsKey r1.fs f.name = true := by
      intro f hf
      rw [hr1]
      exact downloadFilesGo_all_present env (githubValidFiles config files) []
        hok f hf
    have hdl : downloadGitHubFiles env config (.ok files) r1.fs =
        .ok (r1.fs, 0) := by
      simp [downloadGitHubFiles,
        downloadFilesGo_all_skipped env (githubValidFiles config files) r1.fs hall]
    constructor
    · rw [updateGitHubFiles, if_neg hinc]
      rw [show checkGitHubUpdates config (.ok files) r1.fs =
          .ok ⟨compareFileLists (sortStr (getLocalFileList r1.fs config))
            (sortStr ((githubValidFiles config files).map GitHubFile.name)),
            false⟩ from rfl]
      cases hb : compareFileLists (sortStr (getLocalFileList r1.fs config))
          (sortStr ((githubValidFiles config files).map GitHubFile.name)) with
      | false => simp
      | true => simp [hdl]
    · intro hnd hdot hne
      have hkeys : List.Perm (r1.fs.map Prod.fst)
          ((githubValidFiles config files).map GitHubFile.name) := by
        rw [hr1]
        simpa using downloadFilesGo_keys_perm env
          (githubValidFiles config files) [] hok (fun f _ => rfl) hnd
      have hvalid : ∀ x ∈ r1.fs.map Prod.fst,
          (if startsWithDot x then false
            else match config.fileExtensions with
              | none => true
              | some exts => exts.contains (toLowerCaseStr (extname x))) = true := by
        intro x hx
        have hx2 : x ∈ (githubValidFiles config files).map GitHubFile.name :=
          (hkeys.mem_iff).mp hx
        rcases List.mem_map.mp hx2 with ⟨f, hfv, rfl⟩
        have hdotf := hdot f hfv
        have hvf : isValidFile f.name config = true := by
          have hmem : f ∈ (files.filter fun f => f.type = "file").filter
              fun f => isValidFile f.name config :=
            List.mem_of_mem_filter hfv
          exact (List.mem_filter.mp hmem).2
        rw [hdotf]
        simpa [isValidFile] using hvf
      have hlocal : getLocalFileList r1.fs config = r1.fs.map Prod.fst := by
        unfold getLocalFileList
        exact List.filter_eq_self.mpr hvalid
      have hperm : List.Perm (getLocalFileList r1.fs config)
          ((githubValidFiles config files).map GitHubFile.name) := by
        rw [hlocal]
        exact hkeys
      have hsorteq : sortStr (getLocalFileList r1.fs config) =
          sortStr ((githubValidFiles config files).map GitHubFile.name) :=
        sortStr_eq_of_perm hperm
      have hsnil : sortStr ((githubValidFiles config files).map GitHubFile.name) ≠
          [] := by
        intro h0
        have : (githubValidFiles config files).map GitHubFile.name = [] :=
          ((h0 ▸ sortStr_perm ((githubValidFiles config files).map GitHubFile.name) :
            List.Perm [] _)).symm.eq_nil
        exact hne (List.map_eq_nil_iff.mp this)
      have hred : checkGitHubUpdates config (.ok files) r1.fs =
          .ok ⟨compareFileLists (sortStr (getLocalFileList r1.fs config))
            (sortStr ((githubValidFiles config files).map GitHubFile.name)),
            false⟩ := rfl
      rw [hred, hsorteq, compareFileLists_self hsnil]

/-- Environment for the C9 witness: the single remote file's body is
served at `u1`. -/
def envMirror : NetEnv :=
  ⟨fun _ => none, fun u => if u = "u1" then some "DATA" else none,
    fun _ => none, fun _ => none, fun _ _ => none⟩

def cfgMirror : UpdateConfig :=
  { name := "sprite", type := .github, enabled := true,
    checkInterval := 1000, githubRepo := some "r", githubPath := some "p",
    localPath := some "d" }

def fileMirror : GitHubFile :=
  { name := "a.png", path := "p/a.png", download_url := "u1",
    size := 10, type := "file" }

/-- Witness for C9: one remote file, fetched successfully on the first
run; the second run downloads nothing and the detector reports no
change. -/
theorem directory_mirror_idempotent_witness :
    updateGitHubFiles envMirror cfgMirror (.ok [fileMirror])
        [("a.png", "DATA")] = .ok ⟨true, [("a.png", "DATA")], 0, false⟩ ∧
    checkGitHubUpdates cfgMirror (.ok [fileMirror])
        [("a.png", "DATA")] = .ok ⟨false, false⟩ := by
  have h := directory_mirror_idempotent envMirror cfgMirror [fileMirror]
    ⟨true, [("a.png", "DATA")], 1, false⟩ (by decide) (by rfl)
  exact ⟨h.1, h.2 (by decide) (by decide) (by decide)⟩

/-- Witness for C7 at a concrete complete github configuration. -/
theorem rateLimit_fail_open_witness :
    performUpdateGithub
        ⟨fun _ => none, fun _ => none, fun _ => none, fun _ => none,
          fun _ _ => none⟩
        { name := "sprite", type := .github, enabled := true,
          checkInterval := 86400000,
          githubRepo := some "Nikke-db/Nikke-db.github.io",
          githubPath := some "images/sprite",
          localPath := some "src/assets/images/sprite" }
        .rateLimited
        { name := "sprite", isRunning := true, status := .disabled }
        [] 7 =
      ⟨{ name := "sprite", isRunning := true, lastCheck := some 7,
          lastUpdate := some 7, status := .success }, [], 0, true⟩ :=
  rateLimit_fail_open.2 _ _ _ _ _ (by decide) (by decide) (by decide)

end Nikke
